import Mathlib

/-!
Verification of the difficulty-adjustment and proof-of-work core
(`src/pow.cpp`: `GetNextWorkRequired`, `CalculateNextWorkRequired`,
`CheckProofOfWork`) against its natural-language specification.

256-bit magnitudes (`arith_uint256`) are embedded as `Nat` with explicit
`% 2 ^ 256` at every operation that can wrap; `int64_t` values are embedded
as `Int`; the C++ conversion `int64_t → uint64_t` is `u64`; C++ truncated
division/remainder on `int64_t` is `Int.tdiv` / `Int.tmod`.
-/

/-- Bit length of a natural number computed with explicit fuel
(`natSize fuel n` is the bit length of `n` whenever `n < 2 ^ fuel`);
this is the arithmetic content of `arith_uint256::bits()`. -/
def natSize : Nat → Nat → Nat
  | 0, _ => 0
  | fuel + 1, n => if n = 0 then 0 else natSize fuel (n / 2) + 1

/-- Bit length of a 256-bit magnitude: `arith_uint256::bits()`. -/
def size256 (n : Nat) : Nat := natSize 256 n

/-- The C++ conversion from `int64_t` to `uint64_t` (reduction mod `2 ^ 64`,
applied when an `int64_t` is combined with an `arith_uint256`). -/
def u64 (i : Int) : Nat := (i % (2 ^ 64 : Int)).toNat

/-- Modelled from the spec: `arith_uint256::SetCompact` (file
`arith_uint256.cpp` of this repository, not under `src/`).  Decodes the
32-bit compact form into `(magnitude, negative flag, overflow flag)`:
8-bit exponent `nSize`, 23-bit mantissa `nWord`, sign bit `0x00800000`;
the negative flag is set when the mantissa is nonzero and the sign bit is
set; the overflow flag when the exponent/mantissa combination exceeds the
256-bit range.  This is the historical bit-for-bit compact decoding the
spec mandates. -/
def SetCompact (nCompact : Nat) : Nat × Bool × Bool :=
  let nSize := nCompact >>> 24
  let nWord := nCompact &&& 0x007fffff
  let m := if nSize ≤ 3 then nWord >>> (8 * (3 - nSize))
           else (nWord <<< (8 * (nSize - 3))) % 2 ^ 256
  let fNegative := (nWord != 0) && (nCompact &&& 0x00800000 != 0)
  let fOverflow := (nWord != 0) &&
      (decide (34 < nSize) || (decide (0xff < nWord) && decide (33 < nSize)) ||
       (decide (0xffff < nWord) && decide (32 < nSize)))
  (m, fNegative, fOverflow)

/-- Modelled from the spec: `arith_uint256::GetCompact` (file
`arith_uint256.cpp` of this repository, not under `src/`).  Encodes a
256-bit magnitude into the compact form: the exponent is the byte length of
the minimal representation, the mantissa its top three bytes; when the
mantissa would carry the sign bit `0x00800000` it is shifted down one byte
and the exponent increased.  The two `% 2 ^ 64` are `GetLow64()` and the
`% 2 ^ 32` the assignment into the `uint32_t` result. -/
def GetCompact (m : Nat) : Nat :=
  let nSize := (size256 m + 7) / 8
  let nCompact := if nSize ≤ 3 then ((m % 2 ^ 64) <<< (8 * (3 - nSize))) % 2 ^ 32
                  else ((m >>> (8 * (nSize - 3))) % 2 ^ 64) % 2 ^ 32
  if nCompact &&& 0x00800000 != 0 then
    (nCompact >>> 8) ||| ((nSize + 1) <<< 24)
  else
    nCompact ||| (nSize <<< 24)

/-- The consensus parameters consumed by `pow.cpp` (member subset of
`Consensus::Params`). -/
structure ConsensusParams where
  powLimit : Nat
  nPowTargetTimespan : Int
  nPowTargetTimespan_Fork : Int
  nPowTargetSpacing : Int
  HardFork_Height : Int
  fPowAllowMinDifficultyBlocks : Bool
  fPowNoRetargeting : Bool

/-- Modelled from the spec: `Consensus::Params::DifficultyAdjustmentInterval`
(header `consensus/params.h`, not under `src/`): the pre-fork adjustment
interval, derived as timespan divided by spacing. -/
def DifficultyAdjustmentInterval (params : ConsensusParams) : Int :=
  params.nPowTargetTimespan.tdiv params.nPowTargetSpacing

/-- Modelled from the spec: `Consensus::Params::DifficultyAdjustmentInterval_Fork`
(header `consensus/params.h`, not under `src/`): the post-fork adjustment
interval, derived from the post-fork timespan. -/
def DifficultyAdjustmentInterval_Fork (params : ConsensusParams) : Int :=
  params.nPowTargetTimespan_Fork.tdiv params.nPowTargetSpacing

/-- `CheckProofOfWork` from `src/pow.cpp` (lines 140-157): decode the claimed
compact target, reject a negative / zero / overflowed / above-limit target,
then reject a hash above the target. -/
def CheckProofOfWork (hash : Nat) (nBits : Nat) (params : ConsensusParams) : Bool :=
  let r := SetCompact nBits
  let bnTarget := r.1
  let fNegative := r.2.1
  let fOverflow := r.2.2
  if fNegative || (bnTarget == 0) || fOverflow || decide (params.powLimit < bnTarget) then
    false
  else if decide (bnTarget < hash) then
    false
  else
    true

/-- A block-index record: height, timestamp, compact difficulty bits and the
parent back-reference (`CBlockIndex`).  `genesis` is a record whose `pprev`
is null. -/
inductive CBlockIndex : Type where
  | genesis (nHeight : Int) (nTime : Int) (nBits : Nat) : CBlockIndex
  | cons (nHeight : Int) (nTime : Int) (nBits : Nat) (pprev : CBlockIndex) : CBlockIndex

def CBlockIndex.nHeight : CBlockIndex → Int
  | .genesis h _ _ => h
  | .cons h _ _ _ => h

def CBlockIndex.nTime : CBlockIndex → Int
  | .genesis _ t _ => t
  | .cons _ t _ _ => t

def CBlockIndex.nBits : CBlockIndex → Nat
  | .genesis _ _ b => b
  | .cons _ _ b _ => b

def CBlockIndex.pprev : CBlockIndex → Option CBlockIndex
  | .genesis _ _ _ => none
  | .cons _ _ _ p => some p

/-- Number of parent links from a block back to its null-parent root. -/
def chainLen : CBlockIndex → Nat
  | .genesis _ _ _ => 0
  | .cons _ _ _ p => chainLen p + 1

/-- A well-formed chain: each block's height is one more than its parent's
and the parentless root has height 0 (so height = number of parent links). -/
def wellFormed : CBlockIndex → Prop
  | .genesis h _ _ => h = 0
  | .cons h _ _ p => h = p.nHeight + 1 ∧ wellFormed p

/-- The min-difficulty walk-back loop of `GetNextWorkRequired`
(`src/pow.cpp` lines 53-63): step to the parent while the parent exists,
the height is not a multiple of the adjustment interval and the bits equal
the difficulty-limit compact form. -/
def minDiffWalk (difficultyAdjustmentInterval : Int) (limit : Nat) :
    CBlockIndex → CBlockIndex
  | .genesis h t b => .genesis h t b
  | .cons h t b p =>
      if h.tmod difficultyAdjustmentInterval ≠ 0 ∧ b = limit then
        minDiffWalk difficultyAdjustmentInterval limit p
      else
        .cons h t b p

/-- The window walk-back loop of `GetNextWorkRequired` (`src/pow.cpp`
lines 81-83): follow `n` parent links, `none` when the walk runs past the
parentless root (the `assert(pindexFirst)` failure). -/
def walkBack : Nat → CBlockIndex → Option CBlockIndex
  | 0, b => some b
  | _ + 1, .genesis _ _ _ => none
  | n + 1, .cons _ _ _ p => walkBack n p

/-- The timespan clamp of `CalculateNextWorkRequired` (`src/pow.cpp`
lines 105-108): clamp to `[nTargetTimespan/4, nTargetTimespan*4]`
(C++ truncated division). -/
def clampTimespan (nActualTimespan nTargetTimespan : Int) : Int :=
  let a := if nActualTimespan < nTargetTimespan.tdiv 4 then nTargetTimespan.tdiv 4
           else nActualTimespan
  if a > nTargetTimespan * 4 then nTargetTimespan * 4 else a

/-- `bnPowLimit.bits() - 1` on `unsigned int` (`src/pow.cpp` line 119):
wraps to `2 ^ 32 - 1` when `powLimit` is zero (`bits() = 0`). -/
def powLimitBitsM1 (powLimit : Nat) : Nat :=
  if size256 powLimit = 0 then 4294967295 else size256 powLimit - 1

/-- The overflow-avoidance shift condition `fShift` of
`CalculateNextWorkRequired` (`src/pow.cpp` line 119):
`bnNew.bits() > bnPowLimit.bits() - 1`. -/
def fShiftDef (bnNew powLimit : Nat) : Bool :=
  decide (powLimitBitsM1 powLimit < size256 bnNew)

/-- The retarget arithmetic of `CalculateNextWorkRequired` before the
difficulty-limit clamp (`src/pow.cpp` lines 119-128): optional right shift,
multiply by the clamped timespan, divide by the target timespan, optional
symmetric left shift; every `arith_uint256` operation reduces mod `2 ^ 256`. -/
def retargetPreClamp (m powLimit : Nat) (nActualTimespan nTargetTimespan : Int) : Nat :=
  let fShift := fShiftDef m powLimit
  let bnNew0 := if fShift then m >>> 1 else m
  let bnNew1 := (bnNew0 * u64 nActualTimespan) % 2 ^ 256
  let bnNew2 := bnNew1 / u64 nTargetTimespan
  if fShift then (bnNew2 <<< 1) % 2 ^ 256 else bnNew2

/-- The new-target magnitude computed by `CalculateNextWorkRequired`
(`src/pow.cpp` lines 101-131): clamped timespan, decoded previous target,
retarget arithmetic, difficulty-limit clamp. -/
def calcNewMagnitude (pindexLast : CBlockIndex) (nFirstBlockTime : Int)
    (params : ConsensusParams) (nTargetTimespan : Int) : Nat :=
  let nActualTimespan := clampTimespan (pindexLast.nTime - nFirstBlockTime) nTargetTimespan
  let bnNew := (SetCompact pindexLast.nBits).1
  let bnNew := retargetPreClamp bnNew params.powLimit nActualTimespan nTargetTimespan
  if bnNew > params.powLimit then params.powLimit else bnNew

/-- `CalculateNextWorkRequired` from `src/pow.cpp` (lines 93-138). -/
def CalculateNextWorkRequired (pindexLast : CBlockIndex) (nFirstBlockTime : Int)
    (params : ConsensusParams) (nTargetTimespan : Int) : Nat :=
  if params.fPowNoRetargeting then pindexLast.nBits
  else GetCompact (calcNewMagnitude pindexLast nFirstBlockTime params nTargetTimespan)

/-- `CalculateNextWorkRequired` with the division-by-zero error branch of
`arith_uint256::operator/=` made explicit: `none` when the divisor
(the target timespan converted to `uint64_t`) is zero. -/
def CalculateNextWorkRequiredChecked (pindexLast : CBlockIndex) (nFirstBlockTime : Int)
    (params : ConsensusParams) (nTargetTimespan : Int) : Option Nat :=
  if params.fPowNoRetargeting then some pindexLast.nBits
  else if u64 nTargetTimespan = 0 then none
  else some (GetCompact (calcNewMagnitude pindexLast nFirstBlockTime params nTargetTimespan))

/-- The body of `GetNextWorkRequired` (`src/pow.cpp` lines 38-89) after the
two regime-dependent locals `difficultyAdjustmentInterval` and
`nTargetTimespan` have been selected; `none` is the
`assert(pindexFirst)` failure. -/
def gnwrBody (params : ConsensusParams) (difficultyAdjustmentInterval : Int)
    (nTargetTimespan : Int) (pindexLast : CBlockIndex) (pblockTime : Int) : Option Nat :=
  let nProofOfWorkLimit := GetCompact params.powLimit
  if (pindexLast.nHeight + 1).tmod difficultyAdjustmentInterval ≠ 0 then
    if params.fPowAllowMinDifficultyBlocks then
      if pblockTime > pindexLast.nTime + params.nPowTargetSpacing * 2 then
        some nProofOfWorkLimit
      else
        some (minDiffWalk difficultyAdjustmentInterval nProofOfWorkLimit pindexLast).nBits
    else
      some pindexLast.nBits
  else
    let blockstogoback :=
      if pindexLast.nHeight + 1 ≠ difficultyAdjustmentInterval then
        difficultyAdjustmentInterval
      else
        difficultyAdjustmentInterval - 1
    match walkBack blockstogoback.toNat pindexLast with
    | none => none
    | some pindexFirst =>
        some (CalculateNextWorkRequired pindexLast pindexFirst.nTime params nTargetTimespan)

/-- `GetNextWorkRequired` from `src/pow.cpp` (lines 15-90): select the
parameter regime by comparing the last height with the fork height, then
run the body. -/
def GetNextWorkRequired (pindexLast : CBlockIndex) (pblockTime : Int)
    (params : ConsensusParams) : Option Nat :=
  if pindexLast.nHeight ≥ params.HardFork_Height then
    gnwrBody params (DifficultyAdjustmentInterval_Fork params)
      params.nPowTargetTimespan_Fork pindexLast pblockTime
  else
    gnwrBody params (DifficultyAdjustmentInterval params)
      params.nPowTargetTimespan pindexLast pblockTime

/-- The adjustment interval active for a given last block (the value the
regime selection at `src/pow.cpp` lines 30-36 assigns). -/
def activeInterval (pindexLast : CBlockIndex) (params : ConsensusParams) : Int :=
  if pindexLast.nHeight ≥ params.HardFork_Height then DifficultyAdjustmentInterval_Fork params
  else DifficultyAdjustmentInterval params

/-- The target timespan active for a given last block (the value the regime
selection at `src/pow.cpp` lines 30-36 assigns). -/
def activeTimespan (pindexLast : CBlockIndex) (params : ConsensusParams) : Int :=
  if pindexLast.nHeight ≥ params.HardFork_Height then params.nPowTargetTimespan_Fork
  else params.nPowTargetTimespan

/-- The one-step condition of the min-difficulty walk-back loop
(`src/pow.cpp` line 57): the parent exists, the height is not a multiple of
the adjustment interval, and the bits equal the difficulty-limit compact
form. -/
def minDiffCond (difficultyAdjustmentInterval : Int) (limit : Nat) (b : CBlockIndex) : Prop :=
  b.pprev ≠ none ∧ b.nHeight.tmod difficultyAdjustmentInterval ≠ 0 ∧ b.nBits = limit

/-- `MinDiffReach dai limit b w`: block `w` is reached from block `b` by
following parent links through blocks that all satisfy the walk condition
`minDiffCond`. -/
inductive MinDiffReach (dai : Int) (limit : Nat) : CBlockIndex → CBlockIndex → Prop where
  | refl (b : CBlockIndex) : MinDiffReach dai limit b b
  | step (h t : Int) (bits : Nat) (p w : CBlockIndex) :
      minDiffCond dai limit (.cons h t bits p) →
      MinDiffReach dai limit p w →
      MinDiffReach dai limit (.cons h t bits p) w

/-- A magnitude exactly expressible in the compact form's precision: a
mantissa below the sign bit (`2 ^ 23`) scaled by a whole number of bytes,
within 256 bits. -/
def CompactExpressible (m : Nat) : Prop :=
  m < 2 ^ 256 ∧ ∃ mant e : Nat, mant < 0x800000 ∧ m = mant * 256 ^ e

section Fixtures

/-- Concrete parameter set used by witnesses: spacing 600, pre-fork timespan
1200 (interval 2), post-fork timespan 2400 (interval 4), fork at height
1000. -/
def prmA : ConsensusParams :=
  { powLimit := 65535, nPowTargetTimespan := 1200, nPowTargetTimespan_Fork := 2400,
    nPowTargetSpacing := 600, HardFork_Height := 1000,
    fPowAllowMinDifficultyBlocks := true, fPowNoRetargeting := true }

def blkG : CBlockIndex := .genesis 0 5000 50

def blkB1 : CBlockIndex := .cons 1 5600 42 blkG

def blkB2 : CBlockIndex := .cons 2 6200 42 blkB1

/-- A chain whose top carries the difficulty-limit compact bits above a block
with "real" difficulty 7. -/
def blkC1 : CBlockIndex := .cons 1 5600 7 blkG

def blkC2 : CBlockIndex := .cons 2 6200 50397183 blkC1

/-- Parameters for the C5 counterexample: timespan 5 (not divisible by 4),
huge difficulty limit, retargeting active. -/
def prmC5 : ConsensusParams :=
  { powLimit := 2 ^ 255, nPowTargetTimespan := 5, nPowTargetTimespan_Fork := 5,
    nPowTargetSpacing := 1, HardFork_Height := 0,
    fPowAllowMinDifficultyBlocks := false, fPowNoRetargeting := false }

/-- Last block for the C5 counterexample: compact bits `0x01640000`
(decodes to 100). -/
def blkC5 : CBlockIndex := .genesis 0 1000 23330816

/-- Parameters for the C6 counterexample. -/
def prmC6 : ConsensusParams :=
  { powLimit := 2 ^ 255, nPowTargetTimespan := 2 ^ 54, nPowTargetTimespan_Fork := 2 ^ 54,
    nPowTargetSpacing := 600, HardFork_Height := 0,
    fPowAllowMinDifficultyBlocks := false, fPowNoRetargeting := false }

/-- Last block for the C6 counterexample: compact bits `0x1A010000`
(decodes to `2 ^ 200`). -/
def blkC6 : CBlockIndex := .genesis 0 (2 ^ 56) 436273152

end Fixtures

/-! ### Generic helper lemmas -/

theorem natSize_le_fuel : ∀ (fuel n : Nat), natSize fuel n ≤ fuel := by
  intro fuel
  induction fuel with
  | zero => intro n; simp [natSize]
  | succ f ih =>
      intro n
      unfold natSize
      split
      · exact Nat.zero_le _
      · exact Nat.succ_le_succ (ih _)

theorem natSize_eq_size : ∀ (fuel n : Nat), n < 2 ^ fuel → natSize fuel n = Nat.size n := by
  intro fuel
  induction fuel with
  | zero =>
      intro n hn
      interval_cases n
      simp [natSize]
  | succ f ih =>
      intro n hn
      unfold natSize
      split
      · simp_all
      · rename_i hn0
        have hdiv : n / 2 < 2 ^ f := by
          have : n < 2 ^ (f + 1) := hn
          rw [Nat.pow_succ] at this
          omega
        rw [ih _ hdiv]
        -- size n = size (n / 2) + 1 for n ≠ 0
        have h1 : Nat.size n ≤ Nat.size (n / 2) + 1 := by
          rw [Nat.size_le]
          have := Nat.lt_size_self (n / 2)
          rw [Nat.pow_succ]
          omega
        have h2 : Nat.size (n / 2) + 1 ≤ Nat.size n := by
          rcases Nat.eq_zero_or_pos (n / 2) with h0 | hpos
          · have : n = 1 := by omega
            subst this
            simp [Nat.size_one, h0, Nat.size_zero]
          · have hlt : Nat.size (n / 2) - 1 < Nat.size (n / 2) := by
              have := Nat.size_pos.mpr hpos
              omega
            have := Nat.lt_size.mp hlt
            have hpow : 2 ^ Nat.size (n / 2) ≤ n := by
              have h2p : 2 ^ Nat.size (n / 2) = 2 * 2 ^ (Nat.size (n / 2) - 1) := by
                conv_lhs => rw [show Nat.size (n / 2) = (Nat.size (n / 2) - 1) + 1 by omega]
                rw [Nat.pow_succ]
                ring
              rw [h2p]
              omega
            exact Nat.lt_size.mpr hpow
        omega

theorem size256_eq (n : Nat) (hn : n < 2 ^ 256) : size256 n = Nat.size n :=
  natSize_eq_size 256 n hn

theorem size256_le (n : Nat) : size256 n ≤ 256 := natSize_le_fuel 256 n

theorem u64_eq_toNat (a : Int) (h0 : 0 ≤ a) (h1 : a < 2 ^ 64) : u64 a = a.toNat := by
  unfold u64
  rw [Int.emod_eq_of_lt h0 (by exact_mod_cast h1)]

/-! ### C1: CheckProofOfWork boundary -/

/-- C1.  For every 256-bit hash, compact value and parameter set,
`CheckProofOfWork` returns true iff decoding yields a magnitude with the
negative flag clear, the overflow flag clear, the magnitude nonzero, not
exceeding the difficulty-limit magnitude, and the hash at most the
magnitude (so in particular it is false for a hash one above the target and
true for a hash equal to the target). -/
theorem checkProofOfWork_true_iff (hash nBits : Nat) (params : ConsensusParams) :
    CheckProofOfWork hash nBits params = true ↔
      ((SetCompact nBits).2.1 = false ∧ (SetCompact nBits).2.2 = false ∧
       (SetCompact nBits).1 ≠ 0 ∧ (SetCompact nBits).1 ≤ params.powLimit ∧
       hash ≤ (SetCompact nBits).1) := by
  unfold CheckProofOfWork
  rcases h : SetCompact nBits with ⟨t, fNeg, fOvf⟩
  cases fNeg <;> cases fOvf
  · simp
    omega
  · simp
  · simp
  · simp

/-! ### C2: fork regime selection -/

/-- C2.  `GetNextWorkRequired` runs its whole body (boundary test, walk-back,
window length, retarget) with the post-fork adjustment interval and timespan
when the last height is at least the fork height, and with the pre-fork
values otherwise. -/
theorem getNextWorkRequired_regime (pindexLast : CBlockIndex) (pblockTime : Int)
    (params : ConsensusParams) :
    (params.HardFork_Height ≤ pindexLast.nHeight →
      GetNextWorkRequired pindexLast pblockTime params =
        gnwrBody params (DifficultyAdjustmentInterval_Fork params)
          params.nPowTargetTimespan_Fork pindexLast pblockTime) ∧
    (pindexLast.nHeight < params.HardFork_Height →
      GetNextWorkRequired pindexLast pblockTime params =
        gnwrBody params (DifficultyAdjustmentInterval params)
          params.nPowTargetTimespan pindexLast pblockTime) := by
  constructor
  · intro h
    unfold GetNextWorkRequired
    rw [if_pos h]
  · intro h
    unfold GetNextWorkRequired
    rw [if_neg (not_le.mpr h)]

theorem getNextWorkRequired_regime_witness :
    GetNextWorkRequired (.genesis 1000 0 0) 0 prmA =
      gnwrBody prmA (DifficultyAdjustmentInterval_Fork prmA)
        prmA.nPowTargetTimespan_Fork (.genesis 1000 0 0) 0 :=
  (getNextWorkRequired_regime (.genesis 1000 0 0) 0 prmA).1 (by decide)

/-! ### C10: no division by zero in CalculateNextWorkRequired -/

/-- C10.  With a strictly positive (`int64`-ranged) target timespan, the
divisor of the magnitude division in `CalculateNextWorkRequired` is nonzero
(and the clamp's divisor is the constant 4), so the division-by-zero error
branch is unreachable and the function is total. -/
theorem calculateNextWorkRequired_total (pindexLast : CBlockIndex) (nFirstBlockTime : Int)
    (params : ConsensusParams) (nTargetTimespan : Int)
    (hT : 0 < nTargetTimespan) (hT63 : nTargetTimespan < 2 ^ 63) :
    CalculateNextWorkRequiredChecked pindexLast nFirstBlockTime params nTargetTimespan =
      some (CalculateNextWorkRequired pindexLast nFirstBlockTime params nTargetTimespan) := by
  have hz : u64 nTargetTimespan ≠ 0 := by
    unfold u64
    have : nTargetTimespan % 2 ^ 64 = nTargetTimespan :=
      Int.emod_eq_of_lt (le_of_lt hT) (by omega)
    omega
  by_cases hr : params.fPowNoRetargeting <;>
    simp [CalculateNextWorkRequiredChecked, CalculateNextWorkRequired, hr, hz]

theorem calculateNextWorkRequired_total_witness :
    CalculateNextWorkRequiredChecked blkB1 5000 prmA 1200 =
      some (CalculateNextWorkRequired blkB1 5000 prmA 1200) :=
  calculateNextWorkRequired_total blkB1 5000 prmA 1200 (by decide) (by decide)

/-! ### C3: min-difficulty gap rule -/

/-- C3, counterexample to the claim as stated.  `blkB1` has height 1 and the
active adjustment interval is 2, so the candidate height 2 is a retarget
boundary: although min-difficulty blocks are allowed and the candidate
timestamp 99999 exceeds `nTime + 2 * spacing = 6800`, `GetNextWorkRequired`
retargets (here `fPowNoRetargeting` keeps the previous bits 42) instead of
returning the difficulty-limit compact form. -/
theorem minDifficultyGap_counterexample :
    prmA.fPowAllowMinDifficultyBlocks = true ∧
    (99999 : Int) > blkB1.nTime + prmA.nPowTargetSpacing * 2 ∧
    GetNextWorkRequired blkB1 99999 prmA = some 42 ∧
    GetNextWorkRequired blkB1 99999 prmA ≠ some (GetCompact prmA.powLimit) := by
  refine ⟨rfl, by decide, by decide, by decide⟩

/-- C3, amended.  If additionally the candidate height is not a retarget
boundary (`(height + 1) mod interval ≠ 0` for the active interval), then
with min-difficulty blocks allowed and a candidate timestamp more than
`2 * targetSpacing` past the last block's, `GetNextWorkRequired` returns
exactly the difficulty-limit's compact encoding. -/
theorem minDifficultyGap_rule (pindexLast : CBlockIndex) (pblockTime : Int)
    (params : ConsensusParams)
    (hmin : params.fPowAllowMinDifficultyBlocks = true)
    (hgap : pblockTime > pindexLast.nTime + params.nPowTargetSpacing * 2)
    (hboundary : (pindexLast.nHeight + 1).tmod (activeInterval pindexLast params) ≠ 0) :
    GetNextWorkRequired pindexLast pblockTime params = some (GetCompact params.powLimit) := by
  by_cases hf : pindexLast.nHeight ≥ params.HardFork_Height
  · have hb : (pindexLast.nHeight + 1).tmod (DifficultyAdjustmentInterval_Fork params) ≠ 0 := by
      simpa [activeInterval, hf] using hboundary
    simp [GetNextWorkRequired, gnwrBody, hf, hb, hmin, hgap]
  · have hb : (pindexLast.nHeight + 1).tmod (DifficultyAdjustmentInterval params) ≠ 0 := by
      simpa [activeInterval, hf] using hboundary
    simp [GetNextWorkRequired, gnwrBody, hf, hb, hmin, hgap]

theorem minDifficultyGap_rule_witness :
    GetNextWorkRequired blkB2 7401 prmA = some (GetCompact prmA.powLimit) :=
  minDifficultyGap_rule blkB2 7401 prmA (by decide) (by decide) (by decide)

/-! ### C4: min-difficulty walk-back -/

theorem minDiffWalk_reach (dai : Int) (limit : Nat) :
    ∀ b : CBlockIndex, MinDiffReach dai limit b (minDiffWalk dai limit b) ∧
      ¬ minDiffCond dai limit (minDiffWalk dai limit b) := by
  intro b
  induction b with
  | genesis h t bits =>
      refine ⟨MinDiffReach.refl _, ?_⟩
      rintro ⟨hp, -, -⟩
      exact hp rfl
  | cons h t bits p ih =>
      unfold minDiffWalk
      split
      · rename_i hc
        exact ⟨MinDiffReach.step h t bits p _ ⟨by simp [CBlockIndex.pprev], by
            simpa [CBlockIndex.nHeight] using hc.1, by
            simpa [CBlockIndex.nBits] using hc.2⟩ ih.1, ih.2⟩
      · rename_i hc
        refine ⟨MinDiffReach.refl _, ?_⟩
        rintro ⟨-, h1, h2⟩
        exact hc ⟨by simpa [CBlockIndex.nHeight] using h1, by
          simpa [CBlockIndex.nBits] using h2⟩

/-- C4.  When min-difficulty blocks are allowed, the candidate height is not
a retarget boundary, and the candidate timestamp is within
`2 * targetSpacing` of the last block's, `GetNextWorkRequired` returns the
bits of the block where the walk-back loop stops: that block is reached from
the last block through parent links all satisfying the loop condition
(parent exists, height not a multiple of the interval, bits equal the
difficulty-limit compact form), and itself fails the condition. -/
theorem minDiffWalkBack_rule (pindexLast : CBlockIndex) (pblockTime : Int)
    (params : ConsensusParams)
    (hmin : params.fPowAllowMinDifficultyBlocks = true)
    (hgap : ¬ (pblockTime > pindexLast.nTime + params.nPowTargetSpacing * 2))
    (hboundary : (pindexLast.nHeight + 1).tmod (activeInterval pindexLast params) ≠ 0) :
    GetNextWorkRequired pindexLast pblockTime params =
      some ((minDiffWalk (activeInterval pindexLast params) (GetCompact params.powLimit)
        pindexLast).nBits) ∧
    MinDiffReach (activeInterval pindexLast params) (GetCompact params.powLimit) pindexLast
      (minDiffWalk (activeInterval pindexLast params) (GetCompact params.powLimit) pindexLast) ∧
    ¬ minDiffCond (activeInterval pindexLast params) (GetCompact params.powLimit)
      (minDiffWalk (activeInterval pindexLast params) (GetCompact params.powLimit) pindexLast) := by
  refine ⟨?_, (minDiffWalk_reach _ _ pindexLast).1, (minDiffWalk_reach _ _ pindexLast).2⟩
  by_cases hf : pindexLast.nHeight ≥ params.HardFork_Height
  · have hb : (pindexLast.nHeight + 1).tmod (DifficultyAdjustmentInterval_Fork params) ≠ 0 := by
      simpa [activeInterval, hf] using hboundary
    simp [GetNextWorkRequired, gnwrBody, hf, hb, hmin, hgap, activeInterval]
  · have hb : (pindexLast.nHeight + 1).tmod (DifficultyAdjustmentInterval params) ≠ 0 := by
      simpa [activeInterval, hf] using hboundary
    simp [GetNextWorkRequired, gnwrBody, hf, hb, hmin, hgap, activeInterval]

theorem minDiffWalkBack_rule_witness :
    GetNextWorkRequired blkC2 6500 prmA =
      some ((minDiffWalk (activeInterval blkC2 prmA) (GetCompact prmA.powLimit) blkC2).nBits) ∧
    MinDiffReach (activeInterval blkC2 prmA) (GetCompact prmA.powLimit) blkC2
      (minDiffWalk (activeInterval blkC2 prmA) (GetCompact prmA.powLimit) blkC2) ∧
    ¬ minDiffCond (activeInterval blkC2 prmA) (GetCompact prmA.powLimit)
      (minDiffWalk (activeInterval blkC2 prmA) (GetCompact prmA.powLimit) blkC2) :=
  minDiffWalkBack_rule blkC2 6500 prmA (by decide) (by decide) (by decide)

/-! ### C8: the window walk never runs past genesis on a well-formed chain -/

theorem wellFormed_height_eq (b : CBlockIndex) (hwf : wellFormed b) :
    b.nHeight = (chainLen b : Int) := by
  induction b with
  | genesis h t bits => simpa [wellFormed, chainLen, CBlockIndex.nHeight] using hwf
  | cons h t bits p ih =>
      obtain ⟨h1, h2⟩ := hwf
      simp only [chainLen, CBlockIndex.nHeight]
      rw [h1, ih h2]
      push_cast
      ring

theorem walkBack_isSome (n : Nat) : ∀ b : CBlockIndex, n ≤ chainLen b →
    (walkBack n b).isSome = true := by
  induction n with
  | zero => intro b _; simp [walkBack]
  | succ k ih =>
      intro b hb
      cases b with
      | genesis h t bits => simp [chainLen] at hb
      | cons h t bits p =>
          simp only [chainLen] at hb
          exact ih p (by omega)

/-- C8.  On a well-formed chain (height equals the number of parent links,
root height 0), with a positive active adjustment interval, whenever the
candidate height is a retarget boundary the backward walk of
`blockstogoback` parent links stays on the chain: `GetNextWorkRequired`
reaches the retarget calculation and never hits the
`assert(pindexFirst)` failure branch. -/
theorem windowWalk_safe (pindexLast : CBlockIndex) (pblockTime : Int)
    (params : ConsensusParams)
    (hwf : wellFormed pindexLast)
    (hdai : 0 < activeInterval pindexLast params)
    (hboundary : (pindexLast.nHeight + 1).tmod (activeInterval pindexLast params) = 0) :
    (GetNextWorkRequired pindexLast pblockTime params).isSome = true := by
  have hh : pindexLast.nHeight = (chainLen pindexLast : Int) :=
    wellFormed_height_eq pindexLast hwf
  have hkey : ∀ (dai T : Int), 0 < dai → (pindexLast.nHeight + 1).tmod dai = 0 →
      (gnwrBody params dai T pindexLast pblockTime).isSome = true := by
    intro dai T hd hb
    unfold gnwrBody
    rw [if_neg (by simpa using hb)]
    have h0 : 0 ≤ pindexLast.nHeight + 1 := by omega
    have hdvd : dai ∣ pindexLast.nHeight + 1 := by
      have := Int.tmod_eq_emod h0 (le_of_lt hd)
      exact Int.dvd_of_emod_eq_zero (by rw [← this]; exact hb)
    have hbtgb : (if pindexLast.nHeight + 1 ≠ dai then dai else dai - 1).toNat ≤
        chainLen pindexLast := by
      split
      · rename_i hne
        obtain ⟨k, hk⟩ := hdvd
        have hpos : 0 < pindexLast.nHeight + 1 := by omega
        have hk1 : 1 ≤ k := by
          by_contra hk0
          push_neg at hk0
          nlinarith
        have hk2 : k ≠ 1 := by
          rintro rfl
          exact hne (by omega)
        have h2d : 2 * dai ≤ pindexLast.nHeight + 1 := by
          have h2k : 2 ≤ k := by omega
          nlinarith
        omega
      · rename_i heq
        rw [not_not] at heq
        omega
    obtain ⟨w, hw⟩ := Option.isSome_iff_exists.mp (walkBack_isSome _ _ hbtgb)
    simp only [ne_eq, ite_not] at hw
    simp [hw]
  by_cases hf : pindexLast.nHeight ≥ params.HardFork_Height
  · have h1 : activeInterval pindexLast params = DifficultyAdjustmentInterval_Fork params := by
      simp [activeInterval, hf]
    unfold GetNextWorkRequired
    rw [if_pos hf]
    exact hkey _ _ (h1 ▸ hdai) (h1 ▸ hboundary)
  · have h1 : activeInterval pindexLast params = DifficultyAdjustmentInterval params := by
      simp [activeInterval, hf]
    unfold GetNextWorkRequired
    rw [if_neg hf]
    exact hkey _ _ (h1 ▸ hdai) (h1 ▸ hboundary)

theorem windowWalk_safe_witness :
    (GetNextWorkRequired blkB1 99999 prmA).isSome = true :=
  windowWalk_safe blkB1 99999 prmA (by constructor <;> rfl) (by decide) (by decide)

/-! ### Shared arithmetic facts about the retarget computation -/

theorem clampTimespan_bounds (a T : Int) (hT : 0 < T) :
    T.tdiv 4 ≤ clampTimespan a T ∧ clampTimespan a T ≤ T * 4 := by
  have h1 : 0 ≤ T.tdiv 4 := Int.tdiv_nonneg (le_of_lt hT) (by norm_num)
  have h2 : T.tdiv 4 ≤ T * 4 := by
    have he : T.tdiv 4 = T / 4 := Int.tdiv_eq_ediv (le_of_lt hT) (by norm_num)
    have := Int.ediv_le_self 4 (le_of_lt hT)
    omega
  simp only [clampTimespan]
  split_ifs <;> omega

theorem clampTimespan_mono (a1 a2 T : Int) (hT : 0 < T) (h : a1 ≤ a2) :
    clampTimespan a1 T ≤ clampTimespan a2 T := by
  have h1 : 0 ≤ T.tdiv 4 := Int.tdiv_nonneg (le_of_lt hT) (by norm_num)
  have h2 : T.tdiv 4 ≤ T * 4 := by
    have he : T.tdiv 4 = T / 4 := Int.tdiv_eq_ediv (le_of_lt hT) (by norm_num)
    have := Int.ediv_le_self 4 (le_of_lt hT)
    omega
  simp only [clampTimespan]
  split_ifs <;> omega

/-- With no 256-bit overflow (`m * a ≤ 2 ^ 256`), the two `% 2 ^ 256` of the
retarget arithmetic are inert and `retargetPreClamp` is the plain
shift / multiply / divide / unshift computation. -/
theorem retargetPreClamp_eq (m powLimit : Nat) (a T : Int)
    (ha0 : 0 ≤ a) (ha64 : a < 2 ^ 64) (hT : 0 < T) (hT64 : T < 2 ^ 64)
    (hov : m * a.toNat < 2 ^ 256) :
    retargetPreClamp m powLimit a T =
      if fShiftDef m powLimit then 2 * ((m >>> 1) * a.toNat / T.toNat)
      else m * a.toNat / T.toNat := by
  unfold retargetPreClamp
  rw [u64_eq_toNat a ha0 ha64, u64_eq_toNat T (le_of_lt hT) hT64]
  have hhalf : m >>> 1 = m / 2 := by rw [Nat.shiftRight_eq_div_pow]
  by_cases hs : fShiftDef m powLimit
  · rw [if_pos hs, if_pos hs, if_pos hs]
    have hb1 : (m >>> 1) * a.toNat < 2 ^ 256 :=
      lt_of_le_of_lt (Nat.mul_le_mul_right _ (by rw [hhalf]; exact Nat.div_le_self m 2)) hov
    rw [Nat.mod_eq_of_lt hb1]
    set q := (m >>> 1) * a.toNat / T.toNat with hq
    have hb2 : q <<< 1 < 2 ^ 256 := by
      rw [Nat.shiftLeft_eq, pow_one]
      have hq1 : q ≤ (m >>> 1) * a.toNat := Nat.div_le_self _ _
      have hq2 : 2 * ((m >>> 1) * a.toNat) ≤ m * a.toNat := by
        rw [hhalf, ← Nat.mul_assoc]
        exact Nat.mul_le_mul_right _ (by omega)
      omega
    rw [Nat.mod_eq_of_lt hb2, Nat.shiftLeft_eq, pow_one, Nat.mul_comm]
  · rw [if_neg hs, if_neg hs, if_neg hs]
    rw [Nat.mod_eq_of_lt hov]

/-! ### C5: clamp bounds on the retargeted magnitude -/

set_option maxRecDepth 10000 in
/-- C5, counterexample to the claim as stated.  With `noRetargeting` false,
target timespan 5 and a window of zero elapsed time (clamped to
`5.tdiv 4 = 1`), the previous magnitude 100 retargets to `100 * 1 / 5 = 20`
before the limit clamp, and `20` is below one quarter of `100`
(`4 * 20 < 100`, and also `20 < 100 / 4`): integer division and a timespan
not divisible by 4 break the exact quarter lower bound. -/
theorem retargetClamp_counterexample :
    prmC5.fPowNoRetargeting = false ∧
    (SetCompact blkC5.nBits).1 = 100 ∧
    retargetPreClamp (SetCompact blkC5.nBits).1 prmC5.powLimit
      (clampTimespan (blkC5.nTime - 1000) prmC5.nPowTargetTimespan)
      prmC5.nPowTargetTimespan = 20 ∧
    4 * 20 < 100 ∧ (20 : Nat) < 100 / 4 := by
  refine ⟨rfl, by decide, by decide, by decide, by decide⟩

/-- C5, amended.  Assume the target timespan is positive, divisible by 4, at
most `2 ^ 61`, and the previous magnitude times `4 * timespan` fits in 256
bits (no overflow).  Then the pre-clamp magnitude `p` satisfies
`p ≤ 4 * m` and `m ≤ 4 * p + 7` (the quarter lower bound up to the rounding
of the three integer divisions), and the post-clamp magnitude never exceeds
the difficulty-limit magnitude. -/
theorem retargetClamp_bounds (pindexLast : CBlockIndex) (nFirstBlockTime : Int)
    (params : ConsensusParams) (T : Int)
    ( _hnr : params.fPowNoRetargeting = false)
    (hT : 0 < T) (h4 : (4 : Int) ∣ T) (hT61 : T ≤ 2 ^ 61)
    (hov : (SetCompact pindexLast.nBits).1 * (4 * T).toNat < 2 ^ 256) :
    retargetPreClamp (SetCompact pindexLast.nBits).1 params.powLimit
        (clampTimespan (pindexLast.nTime - nFirstBlockTime) T) T ≤
      4 * (SetCompact pindexLast.nBits).1 ∧
    (SetCompact pindexLast.nBits).1 ≤
      4 * retargetPreClamp (SetCompact pindexLast.nBits).1 params.powLimit
        (clampTimespan (pindexLast.nTime - nFirstBlockTime) T) T + 7 ∧
    calcNewMagnitude pindexLast nFirstBlockTime params T ≤ params.powLimit := by
  obtain ⟨k, hk⟩ := h4
  have hk1 : 1 ≤ k := by omega
  set m := (SetCompact pindexLast.nBits).1 with hm
  set a := clampTimespan (pindexLast.nTime - nFirstBlockTime) T with ha
  obtain ⟨hal, hau⟩ := clampTimespan_bounds (pindexLast.nTime - nFirstBlockTime) T hT
  rw [← ha] at hal hau
  have htd : T.tdiv 4 = k := by rw [hk]; exact Int.mul_tdiv_cancel_left k (by norm_num)
  have ha0 : 0 ≤ a := le_trans (by omega) hal
  have ha64 : a < 2 ^ 64 := by omega
  have hAu : a.toNat ≤ (4 * T).toNat := by omega
  have hovA : m * a.toNat < 2 ^ 256 :=
    lt_of_le_of_lt (Nat.mul_le_mul_left _ hAu) hov
  have hKpos : 0 < k.toNat := by omega
  have hTT : T.toNat = 4 * k.toNat := by omega
  have hAl : k.toNat ≤ a.toNat := by omega
  have h16 : (4 * T).toNat = 16 * k.toNat := by omega
  have hbounds : ∀ x : Nat, x / 4 ≤ x * a.toNat / T.toNat ∧ x * a.toNat / T.toNat ≤ 4 * x := by
    intro x
    constructor
    · calc x / 4 = x * k.toNat / (4 * k.toNat) := (Nat.mul_div_mul_right _ _ hKpos).symm
        _ ≤ x * a.toNat / (4 * k.toNat) := Nat.div_le_div_right (Nat.mul_le_mul_left _ hAl)
        _ = x * a.toNat / T.toNat := by rw [hTT]
    · have h1 : x * (16 * k.toNat) = x * 4 * (4 * k.toNat) := by ring
      calc x * a.toNat / T.toNat ≤ x * (16 * k.toNat) / T.toNat :=
          Nat.div_le_div_right (Nat.mul_le_mul_left _ (by omega))
        _ = x * 4 * (4 * k.toNat) / (4 * k.toNat) := by rw [h1, hTT]
        _ = x * 4 := Nat.mul_div_cancel _ (by omega)
        _ = 4 * x := by ring
  have hhalf : m >>> 1 = m / 2 := by rw [Nat.shiftRight_eq_div_pow]
  have hpre := retargetPreClamp_eq m params.powLimit a T ha0 ha64 hT (by omega) hovA
  refine ⟨?_, ?_, ?_⟩
  · rw [hpre]
    split
    · have := (hbounds (m >>> 1)).2
      rw [hhalf] at this ⊢
      omega
    · exact (hbounds m).2
  · rw [hpre]
    split
    · have := (hbounds (m >>> 1)).1
      rw [hhalf] at this ⊢
      omega
    · have := (hbounds m).1
      omega
  · simp only [calcNewMagnitude]
    rw [← hm, ← ha]
    split_ifs <;> omega

set_option maxRecDepth 10000 in
theorem retargetClamp_bounds_witness :
    retargetPreClamp (SetCompact blkC5.nBits).1 prmC5.powLimit
        (clampTimespan (blkC5.nTime - 900) 8) 8 ≤
      4 * (SetCompact blkC5.nBits).1 ∧
    (SetCompact blkC5.nBits).1 ≤
      4 * retargetPreClamp (SetCompact blkC5.nBits).1 prmC5.powLimit
        (clampTimespan (blkC5.nTime - 900) 8) 8 + 7 ∧
    calcNewMagnitude blkC5 900 prmC5 8 ≤ prmC5.powLimit :=
  retargetClamp_bounds blkC5 900 prmC5 8 rfl (by decide) (by decide) (by decide) (by decide)

/-! ### C6: monotonicity of the retargeted magnitude in the actual timespan -/

set_option maxRecDepth 10000 in
/-- C6, counterexample to the claim as stated.  Previous magnitude
`2 ^ 200`, target timespan `2 ^ 54`: an actual timespan of `2 ^ 54` yields
magnitude `2 ^ 200`, but the larger actual timespan `2 ^ 56` (= 4x, not
clamped) makes the 256-bit product wrap (`2 ^ 200 * 2 ^ 56 ≡ 0`), so the
computed magnitude drops to 0: not monotone. -/
theorem retargetMonotone_counterexample :
    prmC6.fPowNoRetargeting = false ∧
    blkC6.nTime - (2 ^ 56 - 2 ^ 54) ≤ blkC6.nTime - 0 ∧
    calcNewMagnitude blkC6 (2 ^ 56 - 2 ^ 54) prmC6 (2 ^ 54) = 2 ^ 200 ∧
    calcNewMagnitude blkC6 0 prmC6 (2 ^ 54) = 0 ∧
    ¬ (calcNewMagnitude blkC6 (2 ^ 56 - 2 ^ 54) prmC6 (2 ^ 54) ≤
        calcNewMagnitude blkC6 0 prmC6 (2 ^ 54)) := by
  refine ⟨rfl, by decide, by decide, by decide, by decide⟩

/-- C6, amended.  Holding the previous compact target, the last timestamp,
the target timespan and the parameters fixed, and assuming
`0 < T ≤ 2 ^ 61` and that the previous magnitude times `4 * T` fits in 256
bits (no overflow), the computed new magnitude is non-decreasing in the
actual timespan. -/
theorem retargetMonotone (pindexLast : CBlockIndex) (f1 f2 : Int)
    (params : ConsensusParams) (T : Int)
    ( _hnr : params.fPowNoRetargeting = false)
    (hT : 0 < T) (hT61 : T ≤ 2 ^ 61)
    (hov : (SetCompact pindexLast.nBits).1 * (4 * T).toNat < 2 ^ 256)
    (h12 : pindexLast.nTime - f1 ≤ pindexLast.nTime - f2) :
    calcNewMagnitude pindexLast f1 params T ≤ calcNewMagnitude pindexLast f2 params T := by
  set m := (SetCompact pindexLast.nBits).1 with hm
  have key : ∀ x y : Int, x ≤ y →
      retargetPreClamp m params.powLimit (clampTimespan x T) T ≤
        retargetPreClamp m params.powLimit (clampTimespan y T) T := by
    intro x y hxy
    obtain ⟨hxl, hxu⟩ := clampTimespan_bounds x T hT
    obtain ⟨hyl, hyu⟩ := clampTimespan_bounds y T hT
    have htd : 0 ≤ T.tdiv 4 := Int.tdiv_nonneg (le_of_lt hT) (by norm_num)
    have hx0 : 0 ≤ clampTimespan x T := le_trans htd hxl
    have hy0 : 0 ≤ clampTimespan y T := le_trans htd hyl
    have hx64 : clampTimespan x T < 2 ^ 64 := by omega
    have hy64 : clampTimespan y T < 2 ^ 64 := by omega
    have hxA : (clampTimespan x T).toNat ≤ (4 * T).toNat := by omega
    have hyA : (clampTimespan y T).toNat ≤ (4 * T).toNat := by omega
    have hovx : m * (clampTimespan x T).toNat < 2 ^ 256 :=
      lt_of_le_of_lt (Nat.mul_le_mul_left _ hxA) hov
    have hovy : m * (clampTimespan y T).toNat < 2 ^ 256 :=
      lt_of_le_of_lt (Nat.mul_le_mul_left _ hyA) hov
    rw [retargetPreClamp_eq m params.powLimit _ T hx0 hx64 hT (by omega) hovx,
        retargetPreClamp_eq m params.powLimit _ T hy0 hy64 hT (by omega) hovy]
    have hmono : (clampTimespan x T).toNat ≤ (clampTimespan y T).toNat := by
      have := clampTimespan_mono x y T hT hxy
      omega
    split
    · exact Nat.mul_le_mul_left _ (Nat.div_le_div_right (Nat.mul_le_mul_left _ hmono))
    · exact Nat.div_le_div_right (Nat.mul_le_mul_left _ hmono)
  have hp := key _ _ h12
  simp only [calcNewMagnitude]
  rw [← hm]
  split_ifs <;> omega

set_option maxRecDepth 10000 in
theorem retargetMonotone_witness :
    calcNewMagnitude blkC5 996 prmC5 8 ≤ calcNewMagnitude blkC5 900 prmC5 8 :=
  retargetMonotone blkC5 996 900 prmC5 8 rfl (by decide) (by decide) (by decide) (by decide)

/-! ### C7: the overflow-avoidance shift -/

/-- C7, counterexample to the claim as stated.  Previous magnitude 4 (bit
length 3) and difficulty limit 8 (bit length 4): the magnitude's bit length
is within 1 of the limit's (`4 - 1 ≤ 3`), yet the code applies no shift
(`fShift` requires bit length strictly above `bits(limit) - 1`), and with
timespans `a = 1, T = 4` the computed pre-clamp value 1 differs from the
value 0 mandated by the claimed shift-then-unshift computation. -/
theorem shiftTrick_counterexample :
    size256 (8 : Nat) - 1 ≤ size256 (4 : Nat) ∧
    fShiftDef 4 8 = false ∧
    retargetPreClamp 4 8 1 4 = 1 ∧
    2 * ((4 >>> 1) * (1 : Int).toNat / (4 : Int).toNat) = 0 := by
  refine ⟨by decide, by decide, by decide, by decide⟩

/-- C7, amended.  The shift is applied exactly when the previous magnitude's
bit length is at least the difficulty limit's bit length (strictly more
than `bits(limit) - 1`; never when the limit is zero, where the unsigned
`bits() - 1` wraps), not also when it is one below; and, absent 256-bit
overflow, the pre-clamp result is the symmetric
shift / multiply / divide / unshift value. -/
theorem shiftTrick (m powLimit : Nat) (a T : Int)
    (ha0 : 0 ≤ a) (ha64 : a < 2 ^ 64) (hT : 0 < T) (hT64 : T < 2 ^ 64)
    (hov : m * a.toNat < 2 ^ 256) :
    (fShiftDef m powLimit = true ↔
      (0 < size256 powLimit ∧ size256 powLimit ≤ size256 m)) ∧
    retargetPreClamp m powLimit a T =
      (if fShiftDef m powLimit then 2 * ((m >>> 1) * a.toNat / T.toNat)
       else m * a.toNat / T.toNat) := by
  constructor
  · unfold fShiftDef powLimitBitsM1
    have hle := size256_le m
    split
    · simp
      omega
    · rename_i h0
      simp only [decide_eq_true_eq]
      omega
  · exact retargetPreClamp_eq m powLimit a T ha0 ha64 hT hT64 hov

theorem shiftTrick_witness :
    (fShiftDef 15 15 = true ↔ (0 < size256 15 ∧ size256 15 ≤ size256 15)) ∧
    retargetPreClamp 15 15 2 8 =
      (if fShiftDef 15 15 then 2 * ((15 >>> 1) * (2 : Int).toNat / (8 : Int).toNat)
       else 15 * (2 : Int).toNat / (8 : Int).toNat) :=
  shiftTrick 15 15 2 8 (by decide) (by decide) (by decide) (by decide) (by decide)

/-! ### C9: compact codec round-trip -/

theorem lor_shift_hi (q c : Nat) (hq : q < 2 ^ 24) : (q ||| c <<< 24) >>> 24 = c := by
  apply Nat.eq_of_testBit_eq
  intro i
  rw [Nat.testBit_shiftRight, Nat.testBit_lor, Nat.testBit_shiftLeft]
  have h1 : q.testBit (24 + i) = false :=
    Nat.testBit_eq_false_of_lt (lt_of_lt_of_le hq (Nat.pow_le_pow_right (by norm_num) (by omega)))
  have h2 : (24 + i ≥ 24) := by omega
  simp [h1, h2]

theorem lor_shift_lo (q c : Nat) (hq : q < 2 ^ 23) : (q ||| c <<< 24) &&& 0x007fffff = q := by
  have h7 : (0x007fffff : Nat) = 2 ^ 23 - 1 := by norm_num
  rw [h7, Nat.and_pow_two_sub_one_eq_mod]
  apply Nat.eq_of_testBit_eq
  intro i
  rw [Nat.testBit_mod_two_pow, Nat.testBit_lor, Nat.testBit_shiftLeft]
  by_cases hi : i < 23
  · have h2 : ¬ (i ≥ 24) := by omega
    simp [hi, h2]
  · have h1 : q.testBit i = false :=
      Nat.testBit_eq_false_of_lt (lt_of_lt_of_le hq (Nat.pow_le_pow_right (by norm_num) (by omega)))
    simp [hi, h1]

theorem bit23_eq (q : Nat) (hq : q < 2 ^ 24) :
    (q &&& 0x00800000 != 0) = decide (2 ^ 23 ≤ q) := by
  have h8 : (0x00800000 : Nat) = 2 ^ 23 := by norm_num
  have h1 : q &&& 0x00800000 = (q.testBit 23).toNat * 2 ^ 23 := by
    rw [h8]; exact Nat.and_two_pow q 23
  have h2 : q.testBit 23 = decide (2 ^ 23 ≤ q) := by
    rw [Nat.testBit_to_div_mod, decide_eq_decide]
    omega
  rw [h1, h2]
  by_cases h : 2 ^ 23 ≤ q
  · rw [decide_eq_true h]
    norm_num
  · rw [decide_eq_false h]
    norm_num

theorem pow256_eq (k : Nat) : 256 ^ k = 2 ^ (8 * k) := by
  rw [show (256 : Nat) = 2 ^ 8 by norm_num, ← pow_mul]

theorem setCompact_lor (q c : Nat) (hq : q < 2 ^ 23) :
    (SetCompact (q ||| c <<< 24)).1 =
      if c ≤ 3 then q >>> (8 * (3 - c)) else (q <<< (8 * (c - 3))) % 2 ^ 256 := by
  simp only [SetCompact]
  rw [lor_shift_hi q c (by omega), lor_shift_lo q c hq]

set_option maxHeartbeats 1000000 in
/-- C9.  For every 256-bit magnitude exactly expressible in the compact
form's precision (a mantissa with the sign bit clear scaled by whole bytes,
within the 256-bit range), decoding the compact encoding gives the
magnitude back: `decode (encode m) = m`. -/
theorem compact_roundTrip (m : Nat) (h : CompactExpressible m) :
    (SetCompact (GetCompact m)).1 = m := by
  obtain ⟨h256, mant, e, hmant, hme⟩ := h
  by_cases hm0 : m = 0
  · subst hm0; decide
  have hsz : size256 m = m.size := size256_eq m h256
  set b := m.size with hb
  set B := (b + 7) / 8 with hB
  have hbpos : 1 ≤ b := by
    rw [hb]
    exact Nat.size_pos.mpr (Nat.pos_of_ne_zero hm0)
  have hmlt : m < 2 ^ (8 * B) := by
    have h1 : m < 2 ^ b := by rw [hb]; exact Nat.lt_size_self m
    exact lt_of_lt_of_le h1 (Nat.pow_le_pow_right (by norm_num) (by omega))
  have hmge : 2 ^ (8 * B - 8) ≤ m := by
    have h1 : 2 ^ (b - 1) ≤ m := Nat.lt_size.mp (by omega)
    exact le_trans (Nat.pow_le_pow_right (by norm_num) (by omega)) h1
  have hup : m < 2 ^ (23 + 8 * e) := by
    rw [hme, pow256_eq]
    calc mant * 2 ^ (8 * e) < 2 ^ 23 * 2 ^ (8 * e) :=
          Nat.mul_lt_mul_of_lt_of_le (by omega) (le_refl _) (Nat.pow_pos (by norm_num))
      _ = 2 ^ (23 + 8 * e) := by rw [← pow_add]
  have heB : B ≤ e + 3 := by
    have h1 := lt_of_le_of_lt hmge hup
    have h2 := (Nat.pow_lt_pow_iff_right (by norm_num : 1 < 2)).mp h1
    omega
  rcases Nat.lt_or_ge B 4 with hB3 | hB4
  · -- B ≤ 3 : the small-magnitude branch of GetCompact
    have hB3' : B ≤ 3 := by omega
    have hm24 : m < 2 ^ 24 :=
      lt_of_lt_of_le hmlt (Nat.pow_le_pow_right (by norm_num) (by omega))
    set q := m * 2 ^ (8 * (3 - B)) with hq
    have hq24 : q < 2 ^ 24 := by
      rw [hq]
      calc m * 2 ^ (8 * (3 - B)) < 2 ^ (8 * B) * 2 ^ (8 * (3 - B)) :=
            Nat.mul_lt_mul_of_lt_of_le hmlt (le_refl _) (Nat.pow_pos (by norm_num))
        _ = 2 ^ 24 := by rw [← pow_add]; congr 1; omega
    have hcond : ((m % 2 ^ 64) <<< (8 * (3 - B))) % 2 ^ 32 = q := by
      rw [Nat.mod_eq_of_lt (lt_of_lt_of_le hm24 (by norm_num)), Nat.shiftLeft_eq, ← hq,
        Nat.mod_eq_of_lt (lt_of_lt_of_le hq24 (by norm_num))]
    have hgc0 : GetCompact m =
        if (q &&& 0x00800000 != 0) = true then (q >>> 8) ||| ((B + 1) <<< 24)
        else q ||| (B <<< 24) := by
      simp only [GetCompact, hsz, ← hb, ← hB]
      rw [if_pos hB3', hcond]
    by_cases hq23 : q < 2 ^ 23
    · -- no mantissa adjustment
      have hgc : GetCompact m = q ||| (B <<< 24) := by
        rw [hgc0, bit23_eq q hq24, if_neg (by simpa using (by omega : ¬ 2 ^ 23 ≤ q))]
      rw [hgc, setCompact_lor q B hq23, if_pos hB3', hq,
        Nat.shiftRight_eq_div_pow, Nat.mul_div_cancel m (Nat.pow_pos (by norm_num))]
    · -- mantissa adjustment: shift the mantissa down one byte
      push_neg at hq23
      have hgc : GetCompact m = (q >>> 8) ||| ((B + 1) <<< 24) := by
        rw [hgc0, bit23_eq q hq24, if_pos (by simpa using hq23)]
      have h256q : (2 ^ 8 : Nat) ∣ q := by
        rcases Nat.lt_or_ge B 3 with hBlt | hBeq
        · rw [hq]
          exact Dvd.dvd.mul_left (pow_dvd_pow 2 (by omega)) m
        · -- B = 3, q = m, and e ≥ 1 because m ≥ 2^23 > mant
          have hB3e : B = 3 := by omega
          have hqm : q = m := by rw [hq, hB3e]; simp
          have he1 : 1 ≤ e := by
            by_contra he0
            push_neg at he0
            interval_cases e
            simp at hme
            omega
          rw [hqm, hme]
          exact Dvd.dvd.mul_left
            (by calc (2 ^ 8 : Nat) = 256 ^ 1 := by norm_num
              _ ∣ 256 ^ e := pow_dvd_pow 256 he1) mant
      have hq' : q >>> 8 = q / 2 ^ 8 := Nat.shiftRight_eq_div_pow q 8
      have hq'23 : q >>> 8 < 2 ^ 23 := by rw [hq']; omega
      rw [hgc, setCompact_lor _ _ hq'23]
      rcases Nat.lt_or_ge B 3 with hBlt | hBeq
      · -- B ≤ 2 : still the small branch when decoding
        rw [if_pos (by omega : B + 1 ≤ 3), hq', Nat.shiftRight_eq_div_pow,
          Nat.div_div_eq_div_mul, ← pow_add]
        have h1 : 8 + 8 * (3 - (B + 1)) = 8 * (3 - B) := by omega
        rw [h1, hq, Nat.mul_div_cancel m (Nat.pow_pos (by norm_num))]
      · -- B = 3 : decoding re-expands by one byte
        have hB3e : B = 3 := by omega
        have hqm : q = m := by rw [hq, hB3e]; simp
        rw [if_neg (by omega : ¬ B + 1 ≤ 3), hq', Nat.shiftLeft_eq]
        have h1 : 8 * (B + 1 - 3) = 8 := by omega
        rw [h1, Nat.div_mul_cancel h256q, hqm, Nat.mod_eq_of_lt h256]
  · -- B ≥ 4 : the large-magnitude branch of GetCompact
    have hB3' : ¬ B ≤ 3 := by omega
    have hdvd : (2 ^ (8 * (B - 3)) : Nat) ∣ m := by
      rw [hme, ← pow256_eq]
      exact Dvd.dvd.mul_left (pow_dvd_pow 256 (by omega)) mant
    set q := m >>> (8 * (B - 3)) with hq
    have hqdiv : q = m / 2 ^ (8 * (B - 3)) := Nat.shiftRight_eq_div_pow m _
    have hq24 : q < 2 ^ 24 := by
      rw [hqdiv]
      rw [Nat.div_lt_iff_lt_mul (Nat.pow_pos (by norm_num))]
      calc m < 2 ^ (8 * B) := hmlt
        _ = 2 ^ 24 * 2 ^ (8 * (B - 3)) := by rw [← pow_add]; congr 1; omega
    have hqm : q * 2 ^ (8 * (B - 3)) = m := by
      rw [hqdiv]; exact Nat.div_mul_cancel hdvd
    have hcond : ((m >>> (8 * (B - 3))) % 2 ^ 64) % 2 ^ 32 = q := by
      rw [← hq, Nat.mod_eq_of_lt (lt_of_lt_of_le hq24 (by norm_num)),
        Nat.mod_eq_of_lt (lt_of_lt_of_le hq24 (by norm_num))]
    have hgc0 : GetCompact m =
        if (q &&& 0x00800000 != 0) = true then (q >>> 8) ||| ((B + 1) <<< 24)
        else q ||| (B <<< 24) := by
      simp only [GetCompact, hsz, ← hb, ← hB]
      rw [if_neg hB3', hcond]
    by_cases hq23 : q < 2 ^ 23
    · have hgc : GetCompact m = q ||| (B <<< 24) := by
        rw [hgc0, bit23_eq q hq24, if_neg (by simpa using (by omega : ¬ 2 ^ 23 ≤ q))]
      rw [hgc, setCompact_lor q B hq23, if_neg hB3', Nat.shiftLeft_eq, hqm,
        Nat.mod_eq_of_lt h256]
    · push_neg at hq23
      have hgc : GetCompact m = (q >>> 8) ||| ((B + 1) <<< 24) := by
        rw [hgc0, bit23_eq q hq24, if_pos (by simpa using hq23)]
      -- q = mant * 256 ^ (e - (B - 3)) with a positive exponent, so 256 ∣ q
      have hqmant : q = mant * 256 ^ (e - (B - 3)) := by
        rw [hqdiv, hme, ← pow256_eq]
        have h1 : (256 : Nat) ^ e = 256 ^ (e - (B - 3)) * 256 ^ (B - 3) := by
          rw [← pow_add]; congr 1; omega
        rw [h1, ← Nat.mul_assoc]
        exact Nat.mul_div_cancel _ (Nat.pow_pos (by norm_num))
      have he1 : 1 ≤ e - (B - 3) := by
        by_contra he0
        push_neg at he0
        have : e - (B - 3) = 0 := by omega
        rw [this] at hqmant
        simp at hqmant
        omega
      have h256q : (2 ^ 8 : Nat) ∣ q := by
        rw [hqmant]
        exact Dvd.dvd.mul_left
          (by calc (2 ^ 8 : Nat) = 256 ^ 1 := by norm_num
            _ ∣ 256 ^ (e - (B - 3)) := pow_dvd_pow 256 he1) mant
      have hq' : q >>> 8 = q / 2 ^ 8 := Nat.shiftRight_eq_div_pow q 8
      have hq'23 : q >>> 8 < 2 ^ 23 := by rw [hq']; omega
      rw [hgc, setCompact_lor _ _ hq'23, if_neg (by omega : ¬ B + 1 ≤ 3), hq',
        Nat.shiftLeft_eq]
      have h1 : (2 : Nat) ^ (8 * (B + 1 - 3)) = 2 ^ 8 * 2 ^ (8 * (B - 3)) := by
        rw [← pow_add]; congr 1; omega
      rw [h1, ← Nat.mul_assoc, Nat.div_mul_cancel h256q, hqm, Nat.mod_eq_of_lt h256]

theorem compact_roundTrip_witness :
    (SetCompact (GetCompact (0x1234 * 256 ^ 5))).1 = 0x1234 * 256 ^ 5 :=
  compact_roundTrip _ ⟨by decide, 0x1234, 5, by decide, rfl⟩
